import Mathlib

set_option maxRecDepth 1000000

/-!
Verification of the AI-response normalization and repair pipeline of the
repository (the Supabase edge functions `index-repository` and
`review-merge-request`), together with the repository fetchers.

JavaScript dynamic values are modelled by the inductive type `JsValue`.
Arrays and objects are encoded with explicit cons constructors so that all
recursive functions are structural and kernel-computable.  JavaScript
exceptions are modelled by `Except Unit`.  Numbers keep their source lexeme;
`JSON.parse` surrogate escapes are approximated by `Char.ofNat` (irrelevant
to every claim below, none of which exercises astral-plane escapes).
-/

inductive JsValue where
  | undefined
  | null
  | bool (b : Bool)
  | num (lex : String)
  | str (s : String)
  | arrNil
  | arrCons (head tail : JsValue)
  | objNil
  | objCons (key : String) (val tail : JsValue)
deriving DecidableEq

/-- Build a JS array value from a Lean list. -/
def jsArr : List JsValue → JsValue
  | [] => .arrNil
  | v :: vs => .arrCons v (jsArr vs)

/-- Build a JS object value from a Lean association list (field order kept). -/
def jsObj : List (String × JsValue) → JsValue
  | [] => .objNil
  | (k, v) :: fs => .objCons k v (jsObj fs)

/-- Elements of a JS array value as a Lean list. -/
def listOfArr : JsValue → List JsValue
  | .arrCons h t => h :: listOfArr t
  | _ => []

/-- Property lookup on a JS object: the LAST binding of a key wins, matching
the value `JSON.parse` assigns when a key is repeated. -/
def objLookLast : JsValue → String → Option JsValue
  | .objCons k v rest, key =>
    match objLookLast rest key with
    | some y => some y
    | none => if k = key then some v else none
  | _, _ => none

/-- Property read ignoring the JS `TypeError` on `null`/`undefined` bases:
objects yield the bound value or `undefined`; primitives yield `undefined`. -/
def jsMemberD (v : JsValue) (key : String) : JsValue :=
  match v with
  | .objCons _ _ _ => (objLookLast v key).getD .undefined
  | _ => .undefined

/-- JS property access `v.key`: throws (models `TypeError`) on `null` and
`undefined` bases, otherwise `jsMemberD`. -/
def jsMember (v : JsValue) (key : String) : Except Unit JsValue :=
  match v with
  | .null => .error ()
  | .undefined => .error ()
  | _ => .ok (jsMemberD v key)

/-- Whether a JS number lexeme denotes zero: its mantissa digits are all 0. -/
def isZeroNumLex (l : String) : Bool :=
  (l.data.takeWhile (fun c => c != 'e' && c != 'E')).all
    (fun c => c == '0' || c == '.' || c == '-' || c == '+')

/-- JS falsiness: `undefined`, `null`, `false`, `0`, `""` are falsy; every
object (including `[]` and `{}`) is truthy. -/
def jsFalsy : JsValue → Bool
  | .undefined => true
  | .null => true
  | .bool b => !b
  | .num l => isZeroNumLex l
  | .str s => s == ""
  | _ => false

/-- JS `a || b`. -/
def jsOr (a b : JsValue) : JsValue := if jsFalsy a then b else a

/-- JS `String(v)` / template-literal coercion.  Arrays stringify as their
elements joined by commas with `null`/`undefined` elements as empty strings
(`Array.prototype.join`); objects stringify as `"[object Object]"`. -/
def jsToString : JsValue → String
  | .undefined => "undefined"
  | .null => "null"
  | .bool true => "true"
  | .bool false => "false"
  | .num l => l
  | .str s => s
  | .objNil => "[object Object]"
  | .objCons _ _ _ => "[object Object]"
  | .arrNil => ""
  | .arrCons v rest =>
    (match v with
     | .null => ""
     | .undefined => ""
     | w => jsToString w)
    ++ (match rest with
        | .arrNil => ""
        | r => "," ++ jsToString r)

/-- Keys of a JS object in first-occurrence order (duplicates collapsed). -/
def dedupKeys (seen : List String) : List String → List String
  | [] => []
  | k :: rest => if seen.contains k then dedupKeys seen rest else k :: dedupKeys (k :: seen) rest

/-- Raw key list of an object-shaped value. -/
def objKeysRaw : JsValue → List String
  | .objCons k _ rest => k :: objKeysRaw rest
  | _ => []

/-- JS `Object.keys`: insertion-ordered keys for objects, index strings for
arrays and strings, empty for other primitives (the callers guard the
`null`/`undefined` cases by truthiness). -/
def jsObjKeys : JsValue → List String
  | .objCons k v rest => dedupKeys [] (objKeysRaw (.objCons k v rest))
  | .str s => (List.range s.length).map (fun i => toString i)
  | .arrCons h t => (List.range (listOfArr (.arrCons h t)).length).map (fun i => toString i)
  | _ => []

/-! ### A model of `JSON.parse`

Strict JSON grammar as accepted by the JavaScript engine: objects, arrays,
strings with escape sequences, numbers, `true`/`false`/`null`, with JSON
whitespace, and full consumption of the input.  Recursion is fuel-indexed so
that the function is structural and evaluates inside the kernel. -/

/-- The four JSON whitespace characters (note: narrower than regex `\s`). -/
def jsonWsChar (c : Char) : Bool :=
  c == ' ' || c == '\t' || c == '\n' || c == '\r'

def digitChar (c : Char) : Bool :=
  decide ('0' ≤ c) && decide (c ≤ '9')

def hexVal (c : Char) : Option Nat :=
  if decide ('0' ≤ c) && decide (c ≤ '9') then some (c.toNat - '0'.toNat)
  else if decide ('a' ≤ c) && decide (c ≤ 'f') then some (c.toNat - 'a'.toNat + 10)
  else if decide ('A' ≤ c) && decide (c ≤ 'F') then some (c.toNat - 'A'.toNat + 10)
  else none

def escCharJson : Char → Option Char
  | '"' => some '"'
  | '\\' => some '\\'
  | '/' => some '/'
  | 'b' => some '\x08'
  | 'f' => some '\x0c'
  | 'n' => some '\n'
  | 'r' => some '\r'
  | 't' => some '\t'
  | _ => none

/-- Body of a JSON string after the opening quote: returns the decoded
characters and the input remaining after the closing quote.  Unescaped
control characters are rejected, as by `JSON.parse`. -/
def strBody : List Char → Option (List Char × List Char)
  | '"' :: rest => some ([], rest)
  | '\\' :: 'u' :: a :: b :: c :: d :: rest => do
    let ha ← hexVal a
    let hb ← hexVal b
    let hc ← hexVal c
    let hd ← hexVal d
    let (s, r) ← strBody rest
    some (Char.ofNat (((ha * 16 + hb) * 16 + hc) * 16 + hd) :: s, r)
  | '\\' :: e :: rest => do
    let ec ← escCharJson e
    let (s, r) ← strBody rest
    some (ec :: s, r)
  | c :: rest =>
    if c.toNat < 32 then none
    else do
      let (s, r) ← strBody rest
      some (c :: s, r)
  | [] => none

def afterFrac (acc : List Char) (cs : List Char) : Option (List Char × List Char) :=
  match cs with
  | e :: r =>
    if e == 'e' || e == 'E' then
      let (sgn, r2) := match r with
        | '+' :: rr => (['+'], rr)
        | '-' :: rr => (['-'], rr)
        | _ => ([], r)
      let ds := r2.takeWhile digitChar
      if ds.isEmpty then none else some (acc ++ e :: (sgn ++ ds), r2.dropWhile digitChar)
    else some (acc, cs)
  | [] => some (acc, [])

def afterInt (acc : List Char) (cs : List Char) : Option (List Char × List Char) :=
  match cs with
  | '.' :: r =>
    let ds := r.takeWhile digitChar
    if ds.isEmpty then none else afterFrac (acc ++ '.' :: ds) (r.dropWhile digitChar)
  | _ => afterFrac acc cs

/-- JSON number lexeme: `-?(0|[1-9][0-9]*)(\.[0-9]+)?([eE][+-]?[0-9]+)?`. -/
def parseNumberLex (cs : List Char) : Option (List Char × List Char) :=
  let (sign, r1) := match cs with
    | '-' :: r => (['-'], r)
    | _ => (([] : List Char), cs)
  match r1 with
  | '0' :: r2 => afterInt (sign ++ ['0']) r2
  | c :: r2 =>
    if digitChar c then
      afterInt (sign ++ c :: r2.takeWhile digitChar) (r2.dropWhile digitChar)
    else none
  | [] => none

/-- Consume a literal character sequence. -/
def dropLit : List Char → List Char → Option (List Char)
  | [], cs => some cs
  | l :: ls, c :: cs => if c = l then dropLit ls cs else none
  | _ :: _, [] => none

def litOrNumber (cs : List Char) : Option (JsValue × List Char) :=
  match dropLit "true".data cs with
  | some r => some (.bool true, r)
  | none =>
    match dropLit "false".data cs with
    | some r => some (.bool false, r)
    | none =>
      match dropLit "null".data cs with
      | some r => some (.null, r)
      | none => (parseNumberLex cs).map (fun p => (.num (String.mk p.1), p.2))

inductive PMode where
  | val
  | members
  | elems

/-- Fuel-indexed JSON parser.  In `members` mode the result is an
object-shaped value, in `elems` mode an array-shaped value. -/
def parseF : Nat → PMode → List Char → Option (JsValue × List Char)
  | 0, _, _ => none
  | Nat.succ f, .val, cs0 =>
    let cs := cs0.dropWhile jsonWsChar
    match cs with
    | '{' :: rest =>
      let r1 := rest.dropWhile jsonWsChar
      (match r1 with
       | '}' :: r2 => some (.objNil, r2)
       | _ => parseF f .members r1)
    | '[' :: rest =>
      let r1 := rest.dropWhile jsonWsChar
      (match r1 with
       | ']' :: r2 => some (.arrNil, r2)
       | _ => parseF f .elems r1)
    | '"' :: rest => (strBody rest).map (fun p => (.str (String.mk p.1), p.2))
    | _ => litOrNumber cs
  | Nat.succ f, .members, cs => do
    let cs1 := cs.dropWhile jsonWsChar
    match cs1 with
    | '"' :: rest => do
      let (k, r1) ← strBody rest
      let r2 := r1.dropWhile jsonWsChar
      match r2 with
      | ':' :: r3 => do
        let (v, r4) ← parseF f .val r3
        let r5 := r4.dropWhile jsonWsChar
        match r5 with
        | ',' :: r6 => (parseF f .members r6).map (fun p => (.objCons (String.mk k) v p.1, p.2))
        | '}' :: r6 => some (.objCons (String.mk k) v .objNil, r6)
        | _ => none
      | _ => none
    | _ => none
  | Nat.succ f, .elems, cs => do
    let (v, r1) ← parseF f .val cs
    let r2 := r1.dropWhile jsonWsChar
    match r2 with
    | ',' :: r3 => (parseF f .elems r3).map (fun p => (.arrCons v p.1, p.2))
    | ']' :: r3 => some (.arrCons v .arrNil, r3)
    | _ => none

/-- `JSON.parse` on a whole string: `.error ()` models the thrown
`SyntaxError`. -/
def parseJsonE (s : String) : Except Unit JsValue :=
  match parseF (2 * s.length + 4) .val s.data with
  | some (v, rest) => if (rest.dropWhile jsonWsChar).isEmpty then .ok v else .error ()
  | none => .error ()

/-! ### Completion-text boundary handling

Models lines 183-200 of the indexer edge function (`analyzeWithAI`): trim,
strip a wrapping markdown code fence, and slice to the outermost brace
span. -/

/-- The character class of the JavaScript regex `\s` (also the set removed
by `String.prototype.trim`). -/
def jsWhitespaceChar (c : Char) : Bool :=
  c == ' ' || c == '\t' || c == '\n' || c == '\r' || c == '\x0b' || c == '\x0c' ||
  c == '\u00A0' || c == '\u1680' ||
  (decide ('\u2000' ≤ c) && decide (c ≤ '\u200A')) ||
  c == '\u2028' || c == '\u2029' || c == '\u202F' || c == '\u205F' ||
  c == '\u3000' || c == '\uFEFF' 

def jsTrimChars (cs : List Char) : List Char :=
  ((cs.dropWhile jsWhitespaceChar).reverse.dropWhile jsWhitespaceChar).reverse

/-- JS `String.prototype.trim`. -/
def jsTrim (s : String) : String := String.mk (jsTrimChars s.data)

def backtickChar : Char := Char.ofNat 96

def startsFence : List Char → Bool
  | a :: b :: c :: _ => a == backtickChar && b == backtickChar && c == backtickChar
  | _ => false

/-- Scan for the first closing fence, returning the characters before it and
the remaining input after it. -/
def splitAtFence : List Char → Option (List Char × List Char)
  | [] => none
  | c :: rest =>
    if startsFence (c :: rest) then some ([], rest.drop 2)
    else (splitAtFence rest).map (fun p => (c :: p.1, p.2))

/-- Group 1 of the first match of ```` /```(?:json)?\s*([\s\S]*?)```/ ````:
the engine tries each start position left to right; at a fence it consumes
the optional `json` tag, a greedy whitespace run, then the lazy group runs to
the nearest closing fence.  `none` when no full match exists. -/
def fenceSplit : List Char → Option (List Char)
  | [] => none
  | c :: rest =>
    if startsFence (c :: rest) then
      let r1 := rest.drop 2
      let r2 := match dropLit "json".data r1 with
        | some r => r
        | none => r1
      let r3 := r2.dropWhile jsWhitespaceChar
      match splitAtFence r3 with
      | some p => some p.1
      | none => fenceSplit rest
    else fenceSplit rest

def idxOfChar (c : Char) (cs : List Char) : Option Nat :=
  cs.findIdx? (fun x => x == c)

def lastIdxOfChar (c : Char) (cs : List Char) : Option Nat :=
  match cs.reverse.findIdx? (fun x => x == c) with
  | some j => some (cs.length - 1 - j)
  | none => none

/-- Indexer brace slicing: `substring(jsonStart, jsonEnd + 1)` when both
braces are found in order, else `substring(jsonStart)` when only `{` is
found. -/
def braceSliceChars (cs : List Char) : List Char :=
  match idxOfChar '{' cs, lastIdxOfChar '}' cs with
  | some s, some e => if s < e then (cs.drop s).take (e + 1 - s) else cs.drop s
  | some s, none => cs.drop s
  | none, _ => cs

/-- Review-pipeline brace slicing (lines 186-190 of `analyzeCodeWithAI`):
same slice condition but with NO `else if` fallback branch. -/
def braceSliceReviewChars (cs : List Char) : List Char :=
  match idxOfChar '{' cs, lastIdxOfChar '}' cs with
  | some s, some e => if s < e then (cs.drop s).take (e + 1 - s) else cs
  | _, _ => cs

/-- The boundary-extraction stage of the indexer funnel: trim, strip fence
(re-trimming the fenced group), slice to braces. -/
def indexerStrip (content : String) : String :=
  let t := jsTrimChars content.data
  let afterFence := match fenceSplit t with
    | some g => jsTrimChars g
    | none => t
  String.mk (braceSliceChars afterFence)

/-- The boundary-extraction stage of the review pipeline. -/
def reviewStrip (content : String) : String :=
  let t := jsTrimChars content.data
  let afterFence := match fenceSplit t with
    | some g => jsTrimChars g
    | none => t
  String.mk (braceSliceReviewChars afterFence)

/-! ### Truncation repair (`repairTruncatedJson`, lines 235-269)

The "last complete property" heuristic is the JavaScript regex

  `/(.*"[^"]+"\s*:\s*(?:\[[^\]]*\]|"[^"]*"|true|false|null|\d+)\s*,?)\s*"[^"]*"?\s*:\s*[^,}\]]*$/s`

Because the pattern begins with a dotall `.*`, it matches somewhere iff it
matches at position 0, and the engine reports the position-0 match, so group
1 is always a prefix of the subject.  Every repetition in the pattern is
over a single character class, so the backtracking engine is modelled by CPS
combinators in which a greedy run first tries its longest extent and gives
characters back one at a time. -/

/-- Greedy `C*` for a character class: consume the longest run first, then
backtrack by handing shorter runs to the continuation. -/
def mClassStar {α : Type} (p : Char → Bool) : List Char → (List Char → Option α) → Option α
  | [], k => k []
  | c :: cs, k => if p c then (mClassStar p cs k) <|> k (c :: cs) else k (c :: cs)

/-- Greedy `C+`. -/
def mClassPlus {α : Type} (p : Char → Bool) : List Char → (List Char → Option α) → Option α
  | [], _ => none
  | c :: cs, k => if p c then mClassStar p cs k else none

/-- A single literal character. -/
def mChar {α : Type} (c : Char) : List Char → (List Char → Option α) → Option α
  | [], _ => none
  | x :: cs, k => if x = c then k cs else none

/-- Greedy `c?`: try consuming first, then not. -/
def mOptChar {α : Type} (c : Char) : List Char → (List Char → Option α) → Option α
  | [], k => k []
  | x :: cs, k => if x = c then (k cs) <|> k (x :: cs) else k (x :: cs)

/-- A literal character sequence. -/
def mLit {α : Type} (lit : List Char) (cs : List Char) (k : List Char → Option α) : Option α :=
  match dropLit lit cs with
  | some r => k r
  | none => none

/-- The value alternation `(?:\[[^\]]*\]|"[^"]*"|true|false|null|\d+)`,
alternatives tried in source order. -/
def mValue {α : Type} (cs : List Char) (k : List Char → Option α) : Option α :=
  (mChar '[' cs (fun r => mClassStar (fun c => c != ']') r (fun r2 => mChar ']' r2 k)))
  <|> (mChar '"' cs (fun r => mClassStar (fun c => c != '"') r (fun r2 => mChar '"' r2 k)))
  <|> mLit "true".data cs k
  <|> mLit "false".data cs k
  <|> mLit "null".data cs k
  <|> mClassPlus digitChar cs k

/-- The dangling-property tail `\s*"[^"]*"?\s*:\s*[^,}\]]*$` after group 1. -/
def mTailEnd (cs : List Char) : Option Unit :=
  mClassStar jsWhitespaceChar cs (fun r1 =>
  mChar '"' r1 (fun r2 =>
  mClassStar (fun c => c != '"') r2 (fun r3 =>
  mOptChar '"' r3 (fun r4 =>
  mClassStar jsWhitespaceChar r4 (fun r5 =>
  mChar ':' r5 (fun r6 =>
  mClassStar jsWhitespaceChar r6 (fun r7 =>
  mClassStar (fun c => c != ',' && c != '}' && c != ']') r7 (fun r8 =>
  if r8.isEmpty then some () else none))))))))

/-- Length of group 1 of the heuristic regex when it matches (`none`
otherwise): leading greedy dotall `.*`, a quoted nonempty key, `:`, a value
alternative, optional comma — then the dangling tail anchored at the end. -/
def heuristicSplit (cs : List Char) : Option Nat :=
  mClassStar (fun _ => true) cs (fun r1 =>
  mChar '"' r1 (fun r2 =>
  mClassPlus (fun c => c != '"') r2 (fun r3 =>
  mChar '"' r3 (fun r4 =>
  mClassStar jsWhitespaceChar r4 (fun r5 =>
  mChar ':' r5 (fun r6 =>
  mClassStar jsWhitespaceChar r6 (fun r7 =>
  mValue r7 (fun r8 =>
  mClassStar jsWhitespaceChar r8 (fun r9 =>
  mOptChar ',' r9 (fun r10 =>
  (mTailEnd r10).map (fun _ => cs.length - r10.length)))))))))))

/-- `repairTruncatedJson` (lines 235-269): truncate to the last complete
property when the heuristic matches, strip a trailing comma (with the
whitespace after it, `/,\s*$/`), close an odd quote, then balance `]` and
`}` counts. -/
def repairTruncatedJson (jsonStr : String) : String :=
  let cs0 := jsonStr.data
  let cs1 := match heuristicSplit cs0 with
    | some k => cs0.take k
    | none => cs0
  let cs2 := match cs1.reverse.dropWhile jsWhitespaceChar with
    | c :: rest => if c = ',' then rest.reverse else cs1
    | [] => cs1
  let cs3 := if cs2.count '"' % 2 ≠ 0 then cs2 ++ ['"'] else cs2
  let cs4 := cs3 ++ List.replicate (cs3.count '[' - cs3.count ']') ']'
  let cs5 := cs4 ++ List.replicate (cs4.count '{' - cs4.count '}') '}'
  String.mk cs5

/-! ### Regex field extraction (`extractPartialData`, lines 271-318) -/

/-- Match of `/"<key>"\s*:\s*"([^"]+)"/` at the current position, returning
group 1 (the first quoted nonempty run). -/
def scalarAt (key : List Char) (cs : List Char) : Option String := do
  let r1 ← dropLit ('"' :: key ++ ['"']) cs
  let r2 := r1.dropWhile jsWhitespaceChar
  let r3 ← dropLit [':'] r2
  let r4 := r3.dropWhile jsWhitespaceChar
  let r5 ← dropLit ['"'] r4
  let run := r5.takeWhile (fun c => c != '"')
  if run.isEmpty then none
  else
    match r5.dropWhile (fun c => c != '"') with
    | '"' :: _ => some (String.mk run)
    | _ => none

/-- Leftmost match of the scalar-field pattern. -/
def scanFirstScalar (key : List Char) : List Char → Option String
  | [] => none
  | c :: rest => (scalarAt key (c :: rest)) <|> scanFirstScalar key rest

/-- Match of `/"<key>"\s*:\s*\[([^\]]*)/` at the current position: group 1
is the run after `[` up to (not including) the first `]` or the end; note
the pattern requires no closing bracket. -/
def arraySpanAt (key : List Char) (cs : List Char) : Option (List Char) := do
  let r1 ← dropLit ('"' :: key ++ ['"']) cs
  let r2 := r1.dropWhile jsWhitespaceChar
  let r3 ← dropLit [':'] r2
  let r4 := r3.dropWhile jsWhitespaceChar
  let r5 ← dropLit ['['] r4
  some (r5.takeWhile (fun c => c != ']'))

def scanFirstArraySpan (key : List Char) : List Char → Option (List Char)
  | [] => none
  | c :: rest => (arraySpanAt key (c :: rest)) <|> scanFirstArraySpan key rest

/-- All matches of the global regex `/"([^"]+)"/g`, returning the quoted
runs (which is also the result of stripping the quotes afterwards). -/
def quotedRunsF : Nat → List Char → List String
  | 0, _ => []
  | _, [] => []
  | Nat.succ f, c :: rest =>
    if c = '"' then
      let run := rest.takeWhile (fun x => x != '"')
      match rest.dropWhile (fun x => x != '"') with
      | '"' :: r2 => if run.isEmpty then quotedRunsF f rest else String.mk run :: quotedRunsF f r2
      | _ => quotedRunsF f rest
    else quotedRunsF f rest

/-- The `extractArray` helper: locate the array span of a key, pull out each
quoted element, keep at most 5. -/
def extractArrayItems (cs : List Char) (key : String) : List String :=
  match scanFirstArraySpan key.data cs with
  | some span => (quotedRunsF (span.length + 1) span).take 5
  | none => []

/-- One iteration of `(?:[^"\\]|\\.)*`: an escape pair or a single
non-quote, non-backslash character. -/
def escapedRunStep : List Char → Option (List Char)
  | '\\' :: _ :: rest => some rest
  | ['\\'] => none
  | '"' :: _ => none
  | _ :: rest => some rest
  | [] => none

/-- Greedy star over a step that consumes at least one character, with
backtracking (longest first). -/
def mStepStar {α : Type} (step : List Char → Option (List Char)) : Nat → List Char → (List Char → Option α) → Option α
  | 0, cs, k => k cs
  | Nat.succ f, cs, k =>
    match step cs with
    | some cs2 => (mStepStar step f cs2 k) <|> k cs
    | none => k cs

/-- Match of `/"readme"\s*:\s*"((?:[^"\\]|\\.)*)"/` at the current position,
returning the raw (still escaped) group 1. -/
def readmeAt (cs : List Char) : Option (List Char) := do
  let r1 ← dropLit ('"' :: "readme".data ++ ['"']) cs
  let r2 := r1.dropWhile jsWhitespaceChar
  let r3 ← dropLit [':'] r2
  let r4 := r3.dropWhile jsWhitespaceChar
  let r5 ← dropLit ['"'] r4
  mStepStar escapedRunStep (r5.length + 1) r5 (fun r6 =>
    match r6 with
    | '"' :: _ => some (r5.take (r5.length - r6.length))
    | _ => none)

def scanFirstReadme : List Char → Option (List Char)
  | [] => none
  | c :: rest => (readmeAt (c :: rest)) <|> scanFirstReadme rest

/-- Global leftmost non-overlapping replacement of the two-character
sequence `a b` by `r` (models `.replace(/\\n/g, ...)` etc.). -/
def replacePairF : Nat → Char → Char → Char → List Char → List Char
  | Nat.succ f, a, b, r, x :: y :: rest =>
    if x = a && y = b then r :: replacePairF f a b r rest
    else x :: replacePairF f a b r (y :: rest)
  | _, _, _, _, cs => cs

/-- The context object handed to the normalizer (`fetchedData` in the edge
function): the four properties the normalizer reads. -/
structure RepoInfo where
  name : JsValue
  path : JsValue
  description : JsValue
  languages : JsValue

/-- `extractPartialData` (lines 271-318): context-derived defaults,
overwritten by whichever regex matches succeed; the language-histogram
fallback fills `techStack` when extraction found none and `languages` is
truthy. -/
def extractPartialData (content : String) (ri : RepoInfo) : JsValue :=
  let cs := content.data
  let pn := match scanFirstScalar "projectName".data cs with
    | some s => JsValue.str s
    | none => jsOr ri.name (jsOr ri.path (.str "Unknown Project"))
  let ds := match scanFirstScalar "description".data cs with
    | some s => JsValue.str s
    | none => jsOr ri.description (.str "Repository analysis completed.")
  let ts0 := extractArrayItems cs "techStack"
  let fe := extractArrayItems cs "features"
  let st := extractArrayItems cs "structure"
  let rm := match scanFirstReadme cs with
    | some raw =>
      String.mk (replacePairF (raw.length + 1) '\\' '"' '"'
        (replacePairF (raw.length + 1) '\\' 'n' '\n' raw))
    | none =>
      "# " ++ jsToString (jsOr ri.name (jsOr ri.path (.str "Project"))) ++ "\n\n"
        ++ jsToString (jsOr ri.description (.str "A software project."))
  let ts := if ts0.isEmpty && !(jsFalsy ri.languages) then (jsObjKeys ri.languages).take 4 else ts0
  jsObj [("projectName", pn), ("description", ds),
         ("techStack", jsArr (ts.map .str)), ("features", jsArr (fe.map .str)),
         ("structure", jsArr (st.map .str)), ("readme", .str rm)]

/-! ### Stage-5 validation (`validateAndNormalize`, lines 320-329) -/

/-- `Array.isArray(v) ? v.slice(0, 5).map(String) : []`. -/
def arrNorm5 : JsValue → JsValue
  | .arrNil => jsArr []
  | .arrCons h t => jsArr (((listOfArr (.arrCons h t)).take 5).map (fun v => JsValue.str (jsToString v)))
  | _ => jsArr []

/-- The object literal built by `validateAndNormalize` from the six property
reads and the context. -/
def vBody (pn ds ts fe st rm : JsValue) (ri : RepoInfo) : JsValue :=
  jsObj [
    ("projectName", .str (jsToString (jsOr pn (jsOr ri.name (jsOr ri.path (.str "Unknown")))))),
    ("description", .str (jsToString (jsOr ds (jsOr ri.description (.str "A software project."))))),
    ("techStack", arrNorm5 ts),
    ("features", arrNorm5 fe),
    ("structure", arrNorm5 st),
    ("readme", .str (jsToString (jsOr rm (.str ("# " ++ jsToString (jsOr pn ri.name) ++ "\n\n"
      ++ jsToString (jsOr ds (.str "")))))))]

/-- `validateAndNormalize(parsed, repoInfo)`: throws (`TypeError`) iff
`parsed` is `null`/`undefined` (the property reads), otherwise returns the
coerced, bounded, defaulted object literal. -/
def validateAndNormalize (parsed : JsValue) (ri : RepoInfo) : Except Unit JsValue := do
  let pn ← jsMember parsed "projectName"
  let ds ← jsMember parsed "description"
  let ts ← jsMember parsed "techStack"
  let fe ← jsMember parsed "features"
  let st ← jsMember parsed "structure"
  let rm ← jsMember parsed "readme"
  Except.ok (vBody pn ds ts fe st rm ri)

/-! ### The indexer funnel (`analyzeWithAI`, lines 183-224) and the review
pipeline's parse (`analyzeCodeWithAI`, lines 176-198) -/

/-- Normalization section of `analyzeWithAI`: boundary strip, then
try `JSON.parse` + validate, then try repair + `JSON.parse` + validate,
then regex extraction (each `try` catches both parse and validate
throws). -/
def analyzeNormalize (content : String) (ri : RepoInfo) : Except Unit JsValue :=
  let js := indexerStrip content
  match (parseJsonE js).bind (fun p => validateAndNormalize p ri) with
  | .ok r => .ok r
  | .error _ =>
    match (parseJsonE (repairTruncatedJson js)).bind (fun p => validateAndNormalize p ri) with
    | .ok r => .ok r
    | .error _ => .ok (extractPartialData js ri)

/-- Parse section of the review pipeline's `analyzeCodeWithAI`: boundary
strip, one direct `JSON.parse`, and on failure the function throws
(`"AI returned invalid JSON response"`), modelled by `.error ()`. -/
def analyzeCodeParse (content : String) : Except Unit JsValue :=
  match parseJsonE (reviewStrip content) with
  | .ok v => .ok v
  | .error _ => .error ()

/-! ### Repository fetchers (`fetchGitHubRepo` lines 36-77,
`fetchGitLabRepo` lines 79-117)

A provider response is abstracted by its `ok` flag, the result of
`res.json()` (`.error ()` when the body is not valid JSON, which in the
source throws), and the result of `res.text()` (which does not throw). -/

structure HttpResponse where
  ok : Bool
  jsonBody : Except Unit JsValue
  textBody : String

structure GitHubFetchResult where
  repoData : JsValue
  tree : JsValue
  languages : JsValue
  packageJson : JsValue
deriving DecidableEq

structure GitLabFetchResult where
  projectData : JsValue
  tree : JsValue
  languages : JsValue
  packageJson : JsValue
deriving DecidableEq

/-- `treeData.tree?.slice(0, 100)`: optional chaining yields `undefined` on
`null`/`undefined`; `slice` works on arrays and strings and throws
(`TypeError`) on other primitives and plain objects. -/
def jsOptChainSlice100 : JsValue → Except Unit JsValue
  | .null => .ok .undefined
  | .undefined => .ok .undefined
  | .arrCons h t => .ok (jsArr ((listOfArr (.arrCons h t)).take 100))
  | .arrNil => .ok (jsArr [])
  | .str s => .ok (.str (String.mk (s.data.take 100)))
  | _ => .error ()

/-- ASCII whitespace removed by the forgiving-base64 decode of `atob`. -/
def asciiWsChar (c : Char) : Bool :=
  c == ' ' || c == '\t' || c == '\n' || c == '\x0c' || c == '\r'

def b64Val (c : Char) : Option Nat :=
  if decide ('A' ≤ c) && decide (c ≤ 'Z') then some (c.toNat - 'A'.toNat)
  else if decide ('a' ≤ c) && decide (c ≤ 'z') then some (c.toNat - 'a'.toNat + 26)
  else if decide ('0' ≤ c) && decide (c ≤ '9') then some (c.toNat - '0'.toNat + 52)
  else if c == '+' then some 62
  else if c == '/' then some 63
  else none

def allB64 : List Char → Option (List Nat)
  | [] => some []
  | c :: rest => do
    let v ← b64Val c
    let vs ← allB64 rest
    some (v :: vs)

/-- Six-bit groups to bytes (leftover bits of a 2- or 3-length remainder are
discarded, as in forgiving-base64). -/
def b64Decode : List Nat → List Nat
  | a :: b :: c :: d :: rest =>
    (a * 4 + b / 16) :: ((b % 16) * 16 + c / 4) :: ((c % 4) * 64 + d) :: b64Decode rest
  | [a, b] => [a * 4 + b / 16]
  | [a, b, c] => [a * 4 + b / 16, (b % 16) * 16 + c / 4]
  | _ => []

/-- `atob`: forgiving-base64 decode to a latin-1 string; `.error ()` models
the thrown `InvalidCharacterError`. -/
def atob (s : String) : Except Unit String :=
  let cs0 := s.data.filter (fun c => !(asciiWsChar c))
  let cs := if cs0.length % 4 = 0 then
      (match cs0.reverse with
       | '=' :: '=' :: r => r.reverse
       | '=' :: r => r.reverse
       | _ => cs0)
    else cs0
  if cs.length % 4 = 1 then .error ()
  else
    match allB64 cs with
    | some vals => .ok (String.mk ((b64Decode vals).map Char.ofNat))
    | none => .error ()

/-- `fetchGitHubRepo` (lines 36-77): non-`ok` primary throws; each secondary
call is consulted only when `ok`, but its body is then read without any
`try`, so malformed bodies (and a `package.json` whose `content` fails
`atob`/`JSON.parse`) throw. -/
def fetchGitHubRepo (repoRes treeRes langRes pkgRes : HttpResponse) : Except Unit GitHubFetchResult :=
  if !repoRes.ok then .error ()
  else do
    let repoData ← repoRes.jsonBody
    let tree ← (if treeRes.ok then do
        let td ← treeRes.jsonBody
        let tv ← jsMember td "tree"
        let sl ← jsOptChainSlice100 tv
        pure (jsOr sl (jsArr []))
      else pure (jsArr []))
    let languages ← (if langRes.ok then langRes.jsonBody else pure .objNil)
    let packageJson ← (if pkgRes.ok then do
        let pd ← pkgRes.jsonBody
        let c ← jsMember pd "content"
        (if !(jsFalsy c) then do
            let dec ← atob (jsToString c)
            parseJsonE dec
          else pure .null)
      else pure .null)
    pure ⟨repoData, tree, languages, packageJson⟩

/-- `fetchGitLabRepo` (lines 79-117): non-`ok` primary throws; the tree and
languages bodies are read without a `try` when `ok` (so malformed bodies
throw), while the manifest is fetched as text and its `JSON.parse` failure
is swallowed by an empty `catch`. -/
def fetchGitLabRepo (projectRes treeRes langRes pkgRes : HttpResponse) : Except Unit GitLabFetchResult :=
  if !projectRes.ok then .error ()
  else do
    let projectData ← projectRes.jsonBody
    let tree ← (if treeRes.ok then treeRes.jsonBody else pure (jsArr []))
    let languages ← (if langRes.ok then langRes.jsonBody else pure .objNil)
    let packageJson := (if pkgRes.ok then
        (match parseJsonE pkgRes.textBody with
         | .ok v => v
         | .error _ => .null)
      else .null)
    pure ⟨projectData, tree, languages, packageJson⟩

/-! ### Statement helpers and spec-side step functions -/

/-- Canonical fully-populated result object of the indexer schema: the shape
of every `validateAndNormalize` output. -/
def mkResultObj (pn ds : String) (ts fe st : List String) (rm : String) : JsValue :=
  jsObj [("projectName", .str pn), ("description", .str ds),
         ("techStack", jsArr (ts.map .str)), ("features", jsArr (fe.map .str)),
         ("structure", jsArr (st.map .str)), ("readme", .str rm)]

def resultFieldNames : List String :=
  ["projectName", "description", "techStack", "features", "structure", "readme"]

/-- All six schema fields are present on the object. -/
def hasSixFields (r : JsValue) : Bool :=
  resultFieldNames.all (fun k => (objLookLast r k).isSome)

/-- Spec step (a): truncate to the last complete key-value pair found by the
trailing-properties heuristic, dropping the dangling partial property. -/
def truncateToLastCompleteProperty (cs : List Char) : List Char :=
  match heuristicSplit cs with
  | some k => cs.take k
  | none => cs

/-- Spec step (b): strip a trailing dangling comma (together with the
whitespace after it, per `/,\s*$/`). -/
def stripDanglingComma (cs : List Char) : List Char :=
  match cs.reverse.dropWhile jsWhitespaceChar with
  | c :: rest => if c = ',' then rest.reverse else cs
  | [] => cs

/-- Spec step (c): append one closing quote if the quote count is odd. -/
def closeUnclosedString (cs : List Char) : List Char :=
  if cs.count '"' % 2 ≠ 0 then cs ++ ['"'] else cs

/-- Spec step (d): append one `]` per excess `[` over `]`. -/
def closeUnclosedArrays (cs : List Char) : List Char :=
  cs ++ List.replicate (cs.count '[' - cs.count ']') ']'

/-- Spec step (e): append one `}` per excess `{` over `}`. -/
def closeUnclosedObjects (cs : List Char) : List Char :=
  cs ++ List.replicate (cs.count '{' - cs.count '}') '}'

/-! ### Concrete instances used by the claims -/

def ctxGarbage : RepoInfo := ⟨.str "repo1", .undefined, .undefined, .undefined⟩

/-- The Scenario A completion of the spec. -/
def scenarioA : String :=
  "\x7b\"projectName\":\"Foo\",\"description\":\"A tool\",\"techStack\":[\"TS\"],\"features\":[],\"structure\":[],\"readme\":\"# Foo\"\x7d"

def ctxA : RepoInfo := ⟨.str "alpha", .undefined, .str "beta", .objNil⟩

def riEmptyCtx : RepoInfo := ⟨.undefined, .undefined, .undefined, .undefined⟩

def pFix : JsValue := jsObj [("projectName", .str "P"), ("description", .str "D"), ("readme", .str "R")]

def rFix : JsValue := mkResultObj "P" "D" [] [] [] "R"

def pEmptyName : JsValue := jsObj [("projectName", jsArr [])]

def rEmptyName : JsValue := mkResultObj "" "A software project." [] [] [] "# \n\n"

def pEight : JsValue :=
  jsObj [("techStack", jsArr (["t1", "t2", "t3", "t4", "t5", "t6", "t7", "t8"].map .str))]

def rEight : JsValue :=
  mkResultObj "Unknown" "A software project." ["t1", "t2", "t3", "t4", "t5"] [] [] "# undefined\n\n"

def longDescr : String := String.mk (List.replicate 150 'a')

def pLong : JsValue := jsObj [("description", .str longDescr)]

def rLong : JsValue := mkResultObj "Unknown" longDescr [] [] [] ("# undefined\n\n" ++ longDescr)

def ctxLang : RepoInfo := ⟨.str "repo6", .undefined, .str "d6", jsObj [("TypeScript", .num "1")]⟩

def pTsEmpty : JsValue := jsObj [("techStack", jsArr [])]

def rTsEmpty : JsValue := mkResultObj "repo6" "d6" [] [] [] "# repo6\n\n"

/-- The Scenario D completion of the spec. -/
def scenarioD : String :=
  "Here is your analysis: projectName is \"Foo\" and techStack includes \"TS\", \"React\""

def ctxD : RepoInfo :=
  ⟨.str "myrepo", .undefined, .str "A demo repository",
   jsObj [("Python", .num "100"), ("Go", .num "50"), ("C", .num "10")]⟩

def outD : JsValue :=
  mkResultObj "myrepo" "A demo repository" ["Python", "Go", "C"] [] []
    "# myrepo\n\nA demo repository"

def reviewBadCompletion : String := "The changes look fine to me."

def respFail : HttpResponse := ⟨false, .error (), ""⟩

def ghOkPrimary : HttpResponse := ⟨true, .ok (jsObj [("name", .str "demo")]), ""⟩

def pkgMalformed : HttpResponse := ⟨true, .ok (jsObj [("content", .str "ew==")]), ""⟩

/-! ### Supporting lemmas -/

theorem listOfArr_jsArr (l : List JsValue) : listOfArr (jsArr l) = l := by
  induction l with
  | nil => rfl
  | cons h t ih => simp [jsArr, listOfArr, ih]

theorem arrNorm5_shape (v : JsValue) :
    ∃ l : List String, arrNorm5 v = jsArr (l.map .str) ∧ l.length ≤ 5 := by
  cases v with
  | arrNil => exact ⟨[], rfl, by decide⟩
  | arrCons h t =>
    refine ⟨((listOfArr (.arrCons h t)).take 5).map jsToString, ?_, ?_⟩
    · simp only [arrNorm5, List.map_map]
      rfl
    · simp [List.length_take]
  | undefined => exact ⟨[], rfl, by decide⟩
  | null => exact ⟨[], rfl, by decide⟩
  | bool b => exact ⟨[], rfl, by decide⟩
  | num l => exact ⟨[], rfl, by decide⟩
  | str s => exact ⟨[], rfl, by decide⟩
  | objNil => exact ⟨[], rfl, by decide⟩
  | objCons k x t => exact ⟨[], rfl, by decide⟩

theorem map_str_id (t : List String) :
    (t.map JsValue.str).map (fun v => JsValue.str (jsToString v)) = t.map JsValue.str := by
  induction t with
  | nil => rfl
  | cons a t ih => simp only [List.map_cons, ih, jsToString]

theorem arrNorm5_strs (l : List String) (h : l.length ≤ 5) :
    arrNorm5 (jsArr (l.map .str)) = jsArr (l.map .str) := by
  cases l with
  | nil => rfl
  | cons a t =>
    show jsArr ((((listOfArr (jsArr ((a :: t).map .str))).take 5)).map
        (fun v => JsValue.str (jsToString v))) = jsArr ((a :: t).map .str)
    rw [listOfArr_jsArr, List.take_of_length_le (by simpa using h), map_str_id]

theorem vBody_shape (pn0 ds0 ts0 fe0 st0 rm0 : JsValue) (ri : RepoInfo) :
    ∃ (pn ds rm : String) (ts fe st : List String),
      vBody pn0 ds0 ts0 fe0 st0 rm0 ri = mkResultObj pn ds ts fe st rm ∧
      ts.length ≤ 5 ∧ fe.length ≤ 5 ∧ st.length ≤ 5 := by
  obtain ⟨ts, hts, hts5⟩ := arrNorm5_shape ts0
  obtain ⟨fe, hfe, hfe5⟩ := arrNorm5_shape fe0
  obtain ⟨st, hst, hst5⟩ := arrNorm5_shape st0
  exact ⟨jsToString (jsOr pn0 (jsOr ri.name (jsOr ri.path (.str "Unknown")))),
         jsToString (jsOr ds0 (jsOr ri.description (.str "A software project."))),
         jsToString (jsOr rm0 (.str ("# " ++ jsToString (jsOr pn0 ri.name) ++ "\n\n"
           ++ jsToString (jsOr ds0 (.str ""))))),
         ts, fe, st,
         by simp only [vBody, mkResultObj, hts, hfe, hst], hts5, hfe5, hst5⟩

theorem validate_ok_shape (p : JsValue) (ri : RepoInfo) (r : JsValue)
    (h : validateAndNormalize p ri = .ok r) :
    ∃ (pn ds rm : String) (ts fe st : List String),
      r = mkResultObj pn ds ts fe st rm ∧
      ts.length ≤ 5 ∧ fe.length ≤ 5 ∧ st.length ≤ 5 := by
  have core : ∀ (a b c d e f : JsValue),
      (Except.ok (vBody a b c d e f ri) : Except Unit JsValue) = Except.ok r →
      ∃ (pn ds rm : String) (ts fe st : List String),
        r = mkResultObj pn ds ts fe st rm ∧
        ts.length ≤ 5 ∧ fe.length ≤ 5 ∧ st.length ≤ 5 := by
    intro a b c d e f hh
    obtain ⟨pn, ds, rm, ts, fe, st, hv, h5a, h5b, h5c⟩ := vBody_shape a b c d e f ri
    refine ⟨pn, ds, rm, ts, fe, st, ?_, h5a, h5b, h5c⟩
    rw [← hv]
    exact (Except.ok.inj hh).symm
  cases p with
  | null => exact Except.noConfusion h
  | undefined => exact Except.noConfusion h
  | bool b => exact core _ _ _ _ _ _ h
  | num l => exact core _ _ _ _ _ _ h
  | str s => exact core _ _ _ _ _ _ h
  | arrNil => exact core _ _ _ _ _ _ h
  | arrCons x t => exact core _ _ _ _ _ _ h
  | objNil => exact core _ _ _ _ _ _ h
  | objCons k v t => exact core _ _ _ _ _ _ h

theorem validate_fixed (ri : RepoInfo) (pn ds rm : String) (ts fe st : List String)
    (hpn : pn ≠ "") (hds : ds ≠ "") (hrm : rm ≠ "")
    (h1 : ts.length ≤ 5) (h2 : fe.length ≤ 5) (h3 : st.length ≤ 5) :
    validateAndNormalize (mkResultObj pn ds ts fe st rm) ri
      = .ok (mkResultObj pn ds ts fe st rm) := by
  have e : validateAndNormalize (mkResultObj pn ds ts fe st rm) ri
      = .ok (vBody (.str pn) (.str ds) (jsArr (ts.map .str)) (jsArr (fe.map .str))
          (jsArr (st.map .str)) (.str rm) ri) := rfl
  rw [e]
  have bpn : (pn == "") = false := beq_eq_false_iff_ne.mpr hpn
  have bds : (ds == "") = false := beq_eq_false_iff_ne.mpr hds
  have brm : (rm == "") = false := beq_eq_false_iff_ne.mpr hrm
  simp only [vBody, mkResultObj, jsOr, jsFalsy, bpn, bds, brm, Bool.false_eq_true,
    if_false, arrNorm5_strs ts h1, arrNorm5_strs fe h2, arrNorm5_strs st h3]
  rfl

theorem hasSix_mkResultObj (pn ds : String) (ts fe st : List String) (rm : String) :
    hasSixFields (mkResultObj pn ds ts fe st rm) = true := rfl

theorem hasSix_extract (c : String) (ri : RepoInfo) :
    hasSixFields (extractPartialData c ri) = true := rfl

theorem bind_validate_ok (x : Except Unit JsValue) (ri : RepoInfo) (r : JsValue)
    (h : x.bind (fun p => validateAndNormalize p ri) = .ok r) :
    ∃ p, validateAndNormalize p ri = .ok r := by
  cases x with
  | ok p => exact ⟨p, h⟩
  | error e => exact Except.noConfusion h

theorem analyzeNormalize_ok (content : String) (ri : RepoInfo) :
    ∃ r, analyzeNormalize content ri = .ok r ∧ hasSixFields r = true := by
  simp only [analyzeNormalize]
  cases h1 : (parseJsonE (indexerStrip content)).bind (fun p => validateAndNormalize p ri) with
  | ok r =>
    refine ⟨r, rfl, ?_⟩
    obtain ⟨p, hp⟩ := bind_validate_ok _ ri r h1
    obtain ⟨pn, ds, rm, ts, fe, st, hr, -, -, -⟩ := validate_ok_shape p ri r hp
    rw [hr]
    exact hasSix_mkResultObj pn ds ts fe st rm
  | error e =>
    cases h2 : (parseJsonE (repairTruncatedJson (indexerStrip content))).bind
        (fun p => validateAndNormalize p ri) with
    | ok r =>
      refine ⟨r, rfl, ?_⟩
      obtain ⟨p, hp⟩ := bind_validate_ok _ ri r h2
      obtain ⟨pn, ds, rm, ts, fe, st, hr, -, -, -⟩ := validate_ok_shape p ri r hp
      rw [hr]
      exact hasSix_mkResultObj pn ds ts fe st rm
    | error e2 =>
      exact ⟨extractPartialData (indexerStrip content) ri, rfl, hasSix_extract _ _⟩

theorem stepA_split (cs : List Char) :
    ∃ r, cs = (match heuristicSplit cs with
               | some k => cs.take k
               | none => cs) ++ r := by
  cases h : heuristicSplit cs with
  | some k => exact ⟨cs.drop k, (List.take_append_drop k cs).symm⟩
  | none => exact ⟨[], (List.append_nil cs).symm⟩

theorem stepB_split (cs : List Char) :
    ∃ r, cs = (match cs.reverse.dropWhile jsWhitespaceChar with
               | c :: rest => if c = ',' then rest.reverse else cs
               | [] => cs) ++ r := by
  cases h : cs.reverse.dropWhile jsWhitespaceChar with
  | nil => exact ⟨[], (List.append_nil cs).symm⟩
  | cons c rest =>
    by_cases hc : c = ','
    · subst hc
      refine ⟨',' :: (cs.reverse.takeWhile jsWhitespaceChar).reverse, ?_⟩
      show cs = rest.reverse ++ (',' :: (cs.reverse.takeWhile jsWhitespaceChar).reverse)
      have hsplit : cs.reverse.takeWhile jsWhitespaceChar ++ (',' :: rest) = cs.reverse := by
        rw [← h]
        exact List.takeWhile_append_dropWhile jsWhitespaceChar cs.reverse
      calc cs = cs.reverse.reverse := (List.reverse_reverse cs).symm
        _ = (cs.reverse.takeWhile jsWhitespaceChar ++ (',' :: rest)).reverse := by rw [hsplit]
        _ = (',' :: rest).reverse ++ (cs.reverse.takeWhile jsWhitespaceChar).reverse := by
            rw [List.reverse_append]
        _ = rest.reverse ++ (',' :: (cs.reverse.takeWhile jsWhitespaceChar).reverse) := by
            rw [List.reverse_cons]
            simp [List.append_assoc]
    · refine ⟨[], ?_⟩
      have hm : (match c :: rest with
                 | x :: xs => if x = ',' then xs.reverse else cs
                 | [] => cs) = (if c = ',' then rest.reverse else cs) := rfl
      rw [hm, if_neg hc, List.append_nil]

theorem truncate_split (cs : List Char) :
    ∃ r, cs = truncateToLastCompleteProperty cs ++ r := stepA_split cs

theorem stripComma_split (cs : List Char) :
    ∃ r, cs = stripDanglingComma cs ++ r := stepB_split cs

theorem all_closer_chars (q : List Char) (hq : q.all (fun c => c == '"') = true) (m n : Nat) :
    (q ++ List.replicate m ']' ++ List.replicate n '}').all
      (fun c => c == '"' || c == ']' || c == '}') = true := by
  simp only [List.all_append, Bool.and_eq_true, List.all_eq_true]
  refine ⟨⟨?_, ?_⟩, ?_⟩
  · intro c hc
    have hce := List.all_eq_true.mp hq c hc
    have : c = '"' := by simpa using hce
    subst this
    decide
  · intro c hc
    have : c = ']' := List.eq_of_mem_replicate hc
    subst this
    decide
  · intro c hc
    have : c = '}' := List.eq_of_mem_replicate hc
    subst this
    decide

theorem closers_append (cs : List Char) :
    ∃ t, closeUnclosedObjects (closeUnclosedArrays (closeUnclosedString cs)) = cs ++ t ∧
      t.all (fun c => c == '"' || c == ']' || c == '}') = true := by
  have hq : ∃ q, closeUnclosedString cs = cs ++ q ∧ q.all (fun c => c == '"') = true := by
    unfold closeUnclosedString
    by_cases h : cs.count '"' % 2 ≠ 0
    · exact ⟨['"'], by rw [if_pos h], by decide⟩
    · exact ⟨[], by rw [if_neg h]; exact (List.append_nil cs).symm, by decide⟩
  obtain ⟨q, hq1, hq2⟩ := hq
  have ha : closeUnclosedArrays (closeUnclosedString cs)
      = cs ++ q ++ List.replicate ((cs ++ q).count '[' - (cs ++ q).count ']') ']' := by
    rw [closeUnclosedArrays, hq1]
  have hb : closeUnclosedObjects (closeUnclosedArrays (closeUnclosedString cs))
      = cs ++ q ++ List.replicate ((cs ++ q).count '[' - (cs ++ q).count ']') ']'
        ++ List.replicate
            ((cs ++ q ++ List.replicate ((cs ++ q).count '[' - (cs ++ q).count ']') ']').count '{'
              - (cs ++ q ++ List.replicate ((cs ++ q).count '[' - (cs ++ q).count ']') ']').count '}') '}' := by
    rw [closeUnclosedObjects, ha]
  refine ⟨q ++ List.replicate ((cs ++ q).count '[' - (cs ++ q).count ']') ']'
        ++ List.replicate
            ((cs ++ q ++ List.replicate ((cs ++ q).count '[' - (cs ++ q).count ']') ']').count '{'
              - (cs ++ q ++ List.replicate ((cs ++ q).count '[' - (cs ++ q).count ']') ']').count '}') '}',
      ?_, all_closer_chars q hq2 _ _⟩
  rw [hb]
  simp [List.append_assoc]

/-! ### Claims -/

/-- C1: the indexer Normalizer is total: for every non-empty completion
string (garbage, valid JSON, truncated JSON, or JSON wrapped in prose or
fences) the funnel returns `ok` — it never throws — and the result carries
all six schema fields `projectName`, `description`, `techStack`,
`features`, `structure`, `readme`. -/
theorem claim1_normalizer_total (content : String) (ri : RepoInfo) (_hne : content ≠ "") :
    ∃ r, analyzeNormalize content ri = .ok r ∧ hasSixFields r = true :=
  analyzeNormalize_ok content ri

/-- Witness for C1 at a concrete garbage completion. -/
theorem claim1_witness :
    "garbage!!" ≠ "" ∧
      ∃ r, analyzeNormalize "garbage!!" ctxGarbage = .ok r ∧ hasSixFields r = true :=
  ⟨by decide, claim1_normalizer_total "garbage!!" ctxGarbage (by decide)⟩

/-- C4: for every input string, `repairTruncatedJson` applies exactly, and
in exactly this order: (a) truncation to the last complete key-value pair
found by the trailing-properties heuristic, (b) stripping of a trailing
dangling comma, (c) appending one closing quote when the quote count is odd,
(d) appending one `]` per excess `[`, (e) appending one `}` per excess
`{`. -/
theorem claim4_repair_steps (s : String) :
    (repairTruncatedJson s).data
      = closeUnclosedObjects (closeUnclosedArrays (closeUnclosedString
          (stripDanglingComma (truncateToLastCompleteProperty s.data)))) := rfl

/-- C10: repair never fabricates data: the repaired string is a prefix of
the input (the heuristic truncation and comma strip only remove characters
from the end) followed only by `"`, `]`, `}` characters. -/
theorem claim10_repair_no_fabrication (s : String) :
    ∃ p t r, (repairTruncatedJson s).data = p ++ t ∧ s.data = p ++ r ∧
      t.all (fun c => c == '"' || c == ']' || c == '}') = true := by
  obtain ⟨r1, h1⟩ := truncate_split s.data
  obtain ⟨r2, h2⟩ := stripComma_split (truncateToLastCompleteProperty s.data)
  obtain ⟨t, ht1, ht2⟩ := closers_append (stripDanglingComma (truncateToLastCompleteProperty s.data))
  refine ⟨stripDanglingComma (truncateToLastCompleteProperty s.data), t, r2 ++ r1, ?_, ?_, ht2⟩
  · calc (repairTruncatedJson s).data
        = closeUnclosedObjects (closeUnclosedArrays (closeUnclosedString
            (stripDanglingComma (truncateToLastCompleteProperty s.data)))) := rfl
      _ = stripDanglingComma (truncateToLastCompleteProperty s.data) ++ t := ht1
  · calc s.data = truncateToLastCompleteProperty s.data ++ r1 := h1
      _ = (stripDanglingComma (truncateToLastCompleteProperty s.data) ++ r2) ++ r1 :=
          congrArg (· ++ r1) h2
      _ = stripDanglingComma (truncateToLastCompleteProperty s.data) ++ (r2 ++ r1) :=
          List.append_assoc _ r2 r1

/-- C5: round-trip: whenever the boundary-stripped completion parses
directly to an object exactly matching the indexer schema (all six fields,
non-empty strings, arrays of at most 5 strings), the funnel output equals
the parsed object — no data loss and no spurious defaulting, including for
empty arrays. -/
theorem claim5_roundtrip (content : String) (ri : RepoInfo) (pn ds rm : String)
    (ts fe st : List String)
    (hparse : parseJsonE (indexerStrip content) = .ok (mkResultObj pn ds ts fe st rm))
    (hpn : pn ≠ "") (hds : ds ≠ "") (hrm : rm ≠ "")
    (h1 : ts.length ≤ 5) (h2 : fe.length ≤ 5) (h3 : st.length ≤ 5) :
    analyzeNormalize content ri = .ok (mkResultObj pn ds ts fe st rm) := by
  have hv := validate_fixed ri pn ds rm ts fe st hpn hds hrm h1 h2 h3
  simp only [analyzeNormalize]
  rw [hparse]
  rw [show (Except.ok (mkResultObj pn ds ts fe st rm) : Except Unit JsValue).bind
      (fun p => validateAndNormalize p ri)
      = validateAndNormalize (mkResultObj pn ds ts fe st rm) ri from rfl]
  rw [hv]

/-- Witness for C5: Scenario A parses directly and round-trips verbatim,
empty arrays included. -/
theorem claim5_witness :
    parseJsonE (indexerStrip scenarioA) = .ok (mkResultObj "Foo" "A tool" ["TS"] [] [] "# Foo") ∧
    analyzeNormalize scenarioA ctxA = .ok (mkResultObj "Foo" "A tool" ["TS"] [] [] "# Foo") :=
  ⟨rfl, claim5_roundtrip scenarioA ctxA "Foo" "A tool" "# Foo" ["TS"] [] [] rfl
    (by decide) (by decide) (by decide) (by decide) (by decide) (by decide)⟩

/-- C8 (amended): stage-5 validation is idempotent on its image as long as
the three string fields of the result are non-empty: applying
`validateAndNormalize` to such an output returns it unchanged. -/
theorem claim8_amended_idempotent (p : JsValue) (ri : RepoInfo) (r : JsValue) (pn ds rm : String)
    (h : validateAndNormalize p ri = .ok r)
    (hpn : objLookLast r "projectName" = some (.str pn)) (hpn0 : pn ≠ "")
    (hds : objLookLast r "description" = some (.str ds)) (hds0 : ds ≠ "")
    (hrm : objLookLast r "readme" = some (.str rm)) (hrm0 : rm ≠ "") :
    validateAndNormalize r ri = .ok r := by
  obtain ⟨pn', ds', rm', ts, fe, st, hr, h5a, h5b, h5c⟩ := validate_ok_shape p ri r h
  subst hr
  have e1 : objLookLast (mkResultObj pn' ds' ts fe st rm') "projectName" = some (.str pn') := rfl
  have e2 : objLookLast (mkResultObj pn' ds' ts fe st rm') "description" = some (.str ds') := rfl
  have e3 : objLookLast (mkResultObj pn' ds' ts fe st rm') "readme" = some (.str rm') := rfl
  rw [e1] at hpn
  rw [e2] at hds
  rw [e3] at hrm
  obtain rfl : pn' = pn := JsValue.str.inj (Option.some.inj hpn)
  obtain rfl : ds' = ds := JsValue.str.inj (Option.some.inj hds)
  obtain rfl : rm' = rm := JsValue.str.inj (Option.some.inj hrm)
  exact validate_fixed ri _ _ _ ts fe st hpn0 hds0 hrm0 h5a h5b h5c

/-- Witness for the amended C8 at a concrete valid object. -/
theorem claim8_witness :
    validateAndNormalize pFix riEmptyCtx = .ok rFix ∧
    validateAndNormalize rFix riEmptyCtx = .ok rFix :=
  ⟨rfl, claim8_amended_idempotent pFix riEmptyCtx rFix "P" "D" "R" rfl rfl
    (by decide) rfl (by decide) rfl (by decide)⟩

/-- Counterexample to C8 as stated: `projectName: []` stringifies to `""`,
which is in the image of stage 5, but a second application re-defaults it to
`"Unknown"`, so validation is not idempotent on its whole image. -/
theorem claim8_counterexample :
    validateAndNormalize pEmptyName riEmptyCtx = .ok rEmptyName ∧
    validateAndNormalize rEmptyName riEmptyCtx ≠ .ok rEmptyName :=
  ⟨rfl, fun hEq => absurd (Except.ok.inj hEq) (by decide)⟩

/-- C3 (amended): stage-5 output bounds every array field to at most 5
string elements; string fields are coerced but NOT length-truncated. -/
theorem claim3_amended_bounds (p : JsValue) (ri : RepoInfo) (r : JsValue)
    (h : validateAndNormalize p ri = .ok r) :
    ∃ ts fe st : List String,
      objLookLast r "techStack" = some (jsArr (ts.map .str)) ∧ ts.length ≤ 5 ∧
      objLookLast r "features" = some (jsArr (fe.map .str)) ∧ fe.length ≤ 5 ∧
      objLookLast r "structure" = some (jsArr (st.map .str)) ∧ st.length ≤ 5 := by
  obtain ⟨pn, ds, rm, ts, fe, st, hr, h5a, h5b, h5c⟩ := validate_ok_shape p ri r h
  subst hr
  exact ⟨ts, fe, st, rfl, h5a, rfl, h5b, rfl, h5c⟩

/-- Witness for the amended C3: an 8-element `techStack` is cut to exactly
its first 5 elements in order (the spec's Scenario F). -/
theorem claim3_witness :
    validateAndNormalize pEight riEmptyCtx = .ok rEight ∧
    (∃ ts fe st : List String,
      objLookLast rEight "techStack" = some (jsArr (ts.map .str)) ∧ ts.length ≤ 5 ∧
      objLookLast rEight "features" = some (jsArr (fe.map .str)) ∧ fe.length ≤ 5 ∧
      objLookLast rEight "structure" = some (jsArr (st.map .str)) ∧ st.length ≤ 5) :=
  ⟨rfl, claim3_amended_bounds pEight riEmptyCtx rEight rfl⟩

/-- Counterexample to C3 as stated: a 150-character description passes
through stage 5 unchanged even though the schema in the prompt declares a
100-character maximum — string fields are never truncated. -/
theorem claim3_counterexample :
    validateAndNormalize pLong riEmptyCtx = .ok rLong ∧
    objLookLast rLong "description" = some (.str longDescr) ∧ 100 < longDescr.length :=
  ⟨rfl, rfl, by decide⟩

/-- C6 (amended): in stage 5 only the string fields receive context-derived
defaults; an absent-or-empty `techStack` array stays empty (first
conjunct) — the language-histogram default exists only in the
regex-extraction stage `extractPartialData` (second conjunct). -/
theorem claim6_amended_defaults :
    (∀ (p : JsValue) (ri : RepoInfo) (r : JsValue),
      validateAndNormalize p ri = .ok r → jsMemberD p "techStack" = jsArr [] →
      objLookLast r "techStack" = some (jsArr [])) ∧
    (∀ (content : String) (ri : RepoInfo),
      extractArrayItems content.data "techStack" = [] → jsFalsy ri.languages = false →
      objLookLast (extractPartialData content ri) "techStack"
        = some (jsArr (((jsObjKeys ri.languages).take 4).map .str))) := by
  constructor
  · intro p ri r h hts
    have core : ∀ (a b c d e f : JsValue),
        (Except.ok (vBody a b c d e f ri) : Except Unit JsValue) = .ok r →
        c = jsArr [] → objLookLast r "techStack" = some (jsArr []) := by
      intro a b c d e f hh hc
      have hr : r = vBody a b c d e f ri := (Except.ok.inj hh).symm
      subst hr
      subst hc
      rfl
    cases p with
    | null => exact Except.noConfusion h
    | undefined => exact Except.noConfusion h
    | bool b => exact core _ _ _ _ _ _ h hts
    | num l => exact core _ _ _ _ _ _ h hts
    | str s => exact core _ _ _ _ _ _ h hts
    | arrNil => exact core _ _ _ _ _ _ h hts
    | arrCons x t => exact core _ _ _ _ _ _ h hts
    | objNil => exact core _ _ _ _ _ _ h hts
    | objCons k v t => exact core _ _ _ _ _ _ h hts
  · intro content ri hext hlang
    simp only [extractPartialData, hext, hlang, List.isEmpty_nil, Bool.not_false, Bool.and_self,
      if_true]
    rfl

/-- Witness for the amended C6 at concrete inputs. -/
theorem claim6_witness :
    objLookLast rTsEmpty "techStack" = some (jsArr []) ∧
    objLookLast (extractPartialData "no json here" ctxLang) "techStack"
      = some (jsArr [.str "TypeScript"]) :=
  ⟨claim6_amended_defaults.1 pTsEmpty ctxLang rTsEmpty rfl rfl,
   claim6_amended_defaults.2 "no json here" ctxLang rfl rfl⟩

/-- Counterexample to C6 as stated: with a parsed empty `techStack` array
and a context whose language histogram is `{TypeScript: 1}`, stage-5 output
keeps `techStack` empty instead of defaulting it to `["TypeScript"]`. -/
theorem claim6_counterexample :
    validateAndNormalize pTsEmpty ctxLang = .ok rTsEmpty ∧
    objLookLast rTsEmpty "techStack" = some (jsArr []) ∧
    jsArr [] ≠ jsArr [.str "TypeScript"] :=
  ⟨rfl, rfl, by decide⟩

/-- Counterexample to C7 as stated: on Scenario D the funnel's output
`techStack` is NOT `["TS","React"]` (it is the language histogram
default). -/
theorem claim7_counterexample :
    analyzeNormalize scenarioD ctxD = .ok outD ∧
    objLookLast outD "techStack" ≠ some (jsArr [.str "TS", .str "React"]) :=
  ⟨rfl, by decide⟩

/-- C7 (amended): on Scenario D the funnel does reach regex extraction, but
neither the scalar pattern nor the array-span pattern matches the prose
(both require a quoted key followed by a colon), so every field defaults
from context and `techStack` becomes the top-4 language names. -/
theorem claim7_amended_extraction :
    scanFirstScalar "projectName".data scenarioD.data = none ∧
    extractArrayItems scenarioD.data "techStack" = [] ∧
    analyzeNormalize scenarioD ctxD = .ok outD :=
  ⟨rfl, rfl, rfl⟩

/-- Counterexample to C2 as stated: the review-pipeline parse throws on a
malformed (non-empty, non-JSON) completion instead of resolving it. -/
theorem claim2_counterexample :
    analyzeCodeParse reviewBadCompletion = .error () := rfl

/-- C2 (amended): the review variant shares only the boundary-strip stages
with the indexer funnel; it performs a single direct parse and propagates
its failure as an error (`"AI returned invalid JSON response"`) — it has no
repair and no regex-extraction stage. -/
theorem claim2_amended_review_throws (content : String) :
    (∃ v, parseJsonE (reviewStrip content) = .ok v ∧ analyzeCodeParse content = .ok v) ∨
    (parseJsonE (reviewStrip content) = .error () ∧ analyzeCodeParse content = .error ()) := by
  cases h : parseJsonE (reviewStrip content) with
  | ok v => exact Or.inl ⟨v, rfl, by simp only [analyzeCodeParse, h]⟩
  | error e => cases e; exact Or.inr ⟨rfl, by simp only [analyzeCodeParse, h]⟩

theorem epure_bind {α β : Type} (x : α) (f : α → Except Unit β) :
    (pure x : Except Unit α) >>= f = f x := rfl

theorem eok_bind {α β : Type} (x : α) (f : α → Except Unit β) :
    (Except.ok x : Except Unit α) >>= f = f x := rfl

/-- Counterexample to C9 as stated: a 2xx `package.json` response whose
`content` decodes (base64 `"ew=="` is `"{"`) to malformed JSON makes
`fetchGitHubRepo` throw instead of degrading the context. -/
theorem claim9_counterexample :
    fetchGitHubRepo ghOkPrimary respFail respFail pkgMalformed = .error () := rfl

/-- C9 (amended): a non-2xx primary response makes both fetchers throw, and
non-2xx secondary responses degrade tree/languages/manifest to their
empty defaults — but (per the counterexample) a 2xx secondary body that is
malformed aborts the fetch. -/
theorem claim9_amended_fetcher (rres tres lres pres : HttpResponse) (rd : JsValue) :
    (rres.ok = false →
      fetchGitHubRepo rres tres lres pres = .error () ∧
      fetchGitLabRepo rres tres lres pres = .error ()) ∧
    (rres.ok = true → rres.jsonBody = .ok rd →
      tres.ok = false → lres.ok = false → pres.ok = false →
      fetchGitHubRepo rres tres lres pres = .ok ⟨rd, jsArr [], .objNil, .null⟩ ∧
      fetchGitLabRepo rres tres lres pres = .ok ⟨rd, jsArr [], .objNil, .null⟩) := by
  constructor
  · intro h
    constructor
    · simp [fetchGitHubRepo, h]
    · simp [fetchGitLabRepo, h]
  · intro hok hjson htres hlres hpres
    constructor
    · simp [fetchGitHubRepo, hok, hjson, htres, hlres, hpres, eok_bind, epure_bind]
    · simp [fetchGitLabRepo, hok, hjson, htres, hlres, hpres, eok_bind, epure_bind]

/-- Witness for the amended C9 at concrete responses. -/
theorem claim9_witness :
    (fetchGitHubRepo respFail respFail respFail respFail = .error () ∧
     fetchGitLabRepo respFail respFail respFail respFail = .error ()) ∧
    (fetchGitHubRepo ghOkPrimary respFail respFail respFail
        = .ok ⟨jsObj [("name", .str "demo")], jsArr [], .objNil, .null⟩ ∧
     fetchGitLabRepo ghOkPrimary respFail respFail respFail
        = .ok ⟨jsObj [("name", .str "demo")], jsArr [], .objNil, .null⟩) :=
  ⟨(claim9_amended_fetcher respFail respFail respFail respFail .null).1 rfl,
   (claim9_amended_fetcher ghOkPrimary respFail respFail respFail
      (jsObj [("name", .str "demo")])).2 rfl rfl rfl rfl rfl⟩
